import Mathlib

/-!
# PRESTO: `mpiprepsubband_utils.c` and `accel.h`

A shallow embedding of the helper routines of `src/MPI/mpiprepsubband_utils.c`
and of the grid constants and record types of `src/include/accel.h`.

Conventions of the embedding:

* C `double`/`float` values are rationals (`ℚ`): the properties below are
  stated over exact arithmetic.
* C `int` values are integers (`Int`) within the 32-bit range; where a sum or
  difference of arguments can leave that range (`update_infodata`) the result
  is reduced by `wrap_int`, the two's-complement wrap-around.
* C arrays are lists (or, for the fixed-size `onoff` table, a total map from
  index to value); file streams are the lists of items written so far.
* Freshly allocated memory has unspecified contents, supplied by a `junk`
  parameter.
-/

namespace Presto

/-! ## `update_stats` (mpiprepsubband_utils.c, lines 158-174) -/

/-- The four running statistics that `update_stats` receives by pointer. -/
structure Stats where
  min : ℚ
  max : ℚ
  avg : ℚ
  var : ℚ
  deriving DecidableEq

/-- The routine `update_stats(N, x, &min, &max, &avg, &var)`, statement by
statement; the state holds the four values passed by pointer. -/
def update_stats (N : Int) (x : ℚ) (s : Stats) : Stats :=
  let max := if x > s.max then x else s.max
  let min := if x < s.min then x else s.min
  let dev := x - s.avg
  let avg := s.avg + dev / ((N : ℚ) + 1)
  let var := s.var + dev * (x - avg)
  { min := min, max := max, avg := avg, var := var }

/-- Successive calls `update_stats(N, x_N, ...)` for `N = start, start+1, ...`
over the samples of `xs`. -/
def update_stats_from : Nat → List ℚ → Stats → Stats
  | _, [], s => s
  | N, x :: xs, s => update_stats_from (N + 1) xs (update_stats (N : Int) x s)

/-- Arithmetic mean of a sample list. -/
def mean (xs : List ℚ) : ℚ := xs.sum / (xs.length : ℚ)

/-- Sum of squared deviations of the samples from `m`. -/
def sumSqDev (m : ℚ) (xs : List ℚ) : ℚ := (xs.map (fun x => (x - m) ^ 2)).sum

/-! ## `broadcast_mask` (mpiprepsubband_utils.c, lines 12-24 and 43-79) -/

/-- The wire record `maskbase` (lines 12-24): six doubles, five ints. -/
structure maskbase where
  timesigma : ℚ
  freqsigma : ℚ
  mjd : ℚ
  dtint : ℚ
  lofreq : ℚ
  dfreq : ℚ
  numchan : Int
  numint : Int
  ptsperint : Int
  num_zap_chans : Int
  num_zap_ints : Int
  deriving DecidableEq

/-- The fields of `mask` (declared in mask.h) that `broadcast_mask` reads or
writes: the eleven scalars mirrored by `maskbase` and the four arrays. -/
structure mask where
  timesigma : ℚ
  freqsigma : ℚ
  mjd : ℚ
  dtint : ℚ
  lofreq : ℚ
  dfreq : ℚ
  numchan : Int
  numint : Int
  ptsperint : Int
  num_zap_chans : Int
  num_zap_ints : Int
  zap_chans : List Int
  zap_ints : List Int
  num_chans_per_int : List Int
  chans : List (List Int)
  deriving DecidableEq

/-- Allocation helper `gen_ivect(length)` (vectors.c, not among the sources): a
fresh `int` vector of the given length; its contents are unspecified and are
supplied by `junk`. The allocation is assumed to succeed. -/
def gen_ivect (junk : Nat → Int) (length : Int) : List Int :=
  (List.range length.toNat).map junk

/-- One `MPI_Bcast(buf, count, MPI_INT, 0, MPI_COMM_WORLD)` as seen by process
`myid`: the root (rank 0) keeps its buffer, every other process has the first
`count` items of its buffer overwritten with the root's. -/
def MPI_Bcast (rootbuf : List Int) (count : Int) (myid : Int) (buf : List Int) :
    List Int :=
  if myid = 0 then buf else rootbuf.take count.toNat ++ buf.drop count.toNat

/-- A derived datatype as handed to `MPI_Type_struct`: per block, the number of
items and the byte displacement of the block from the start of the buffer. -/
structure MPI_Datatype where
  blockcounts : List Int
  displs : List Int
  deriving DecidableEq

/-- Byte offset of `numchan` inside `maskbase`: it follows the six doubles. -/
def numchan_offset : Int := 48

/-- The routine `make_maskbase_struct()` (lines 27-40), returning the value it
commits to the global `maskbase_type`. `addr` is the address of its local
`mbase`, so `MPI_Address` yields `addr` for `mbase.timesigma` and
`addr + numchan_offset` for `mbase.numchan`. The loop of lines 36-37 subtracts
`displs[0]` from `displs[ii]` for `ii = 0, 1` in that order. -/
def make_maskbase_struct (addr : Int) : MPI_Datatype :=
  let blockcounts : List Int := [6, 5]
  let displs : List Int := [addr, addr + numchan_offset]
  let displs := (List.range 2).foldl
    (fun displs ii => displs.set ii (displs.getD ii 0 - displs.getD 0 0)) displs
  { blockcounts := blockcounts, displs := displs }

/-- The call `MPI_Bcast(&mbase, 1, maskbase_type, 0, MPI_COMM_WORLD)` as seen by
process `myid`. The root keeps its record. On another process the block of six
doubles lands on `timesigma .. dfreq` when its displacement is 0, and the block
of five ints lands on `numchan .. num_zap_ints` when its displacement is
`numchan_offset`; a block with any other displacement is transferred from and to
memory outside the record, whose members then keep their local values. -/
def MPI_Bcast_maskbase (maskbase_type : MPI_Datatype) (rootbase : maskbase) (myid : Int)
    (mbase : maskbase) : maskbase :=
  if myid = 0 then mbase
  else
    let mbase :=
      if maskbase_type.displs.getD 0 0 = 0 then
        { mbase with
          timesigma := rootbase.timesigma
          freqsigma := rootbase.freqsigma
          mjd := rootbase.mjd
          dtint := rootbase.dtint
          lofreq := rootbase.lofreq
          dfreq := rootbase.dfreq }
      else mbase
    if maskbase_type.displs.getD 1 0 = numchan_offset then
      { mbase with
        numchan := rootbase.numchan
        numint := rootbase.numint
        ptsperint := rootbase.ptsperint
        num_zap_chans := rootbase.num_zap_chans
        num_zap_ints := rootbase.num_zap_ints }
    else mbase

/-- Lines 48-58: the root fills `mbase` from its `obsmask`. -/
def pack_maskbase (obsmask : mask) : maskbase :=
  { timesigma := obsmask.timesigma
    freqsigma := obsmask.freqsigma
    mjd := obsmask.mjd
    dtint := obsmask.dtint
    lofreq := obsmask.lofreq
    dfreq := obsmask.dfreq
    numchan := obsmask.numchan
    numint := obsmask.numint
    ptsperint := obsmask.ptsperint
    num_zap_chans := obsmask.num_zap_chans
    num_zap_ints := obsmask.num_zap_ints }

/-- Body of the loop of lines 73-78 for one `ii`: a consumer allocates
`chans[ii]`, then `chans[ii]` is broadcast with the local count
`num_chans_per_int[ii]`. `producer` is the root's mask, whose `chans[ii]` is the
root's buffer in this broadcast. -/
def broadcast_chans_step (producer : mask) (junk : Nat → Int) (myid : Int)
    (obsmask : mask) (ii : Nat) : mask :=
  let count := obsmask.num_chans_per_int.getD ii 0
  let chans1 :=
    if myid > 0 then obsmask.chans.set ii (gen_ivect junk count) else obsmask.chans
  let chans2 :=
    chans1.set ii (MPI_Bcast (producer.chans.getD ii []) count myid (chans1.getD ii []))
  { obsmask with chans := chans2 }

/-- The routine `broadcast_mask(obsmask, myid)` as executed by process `myid`, the root's
mask being `producer` (for `myid = 0` the caller passes `obsmask = producer`).
`maskbase_type` is the global datatype, `mbase0` the uninitialised local
`mbase`, `junk` the contents of fresh vectors; `malloc(numint * sizeof(int *))`
yields `numint` unset row pointers. -/
def broadcast_mask (maskbase_type : MPI_Datatype) (producer : mask) (mbase0 : maskbase)
    (junk : Nat → Int) (obsmask : mask) (myid : Int) : mask :=
  let mbase := if myid = 0 then pack_maskbase obsmask else mbase0
  let mbase := MPI_Bcast_maskbase maskbase_type (pack_maskbase producer) myid mbase
  let obsmask :=
    if myid > 0 then
      { obsmask with
        zap_chans := gen_ivect junk mbase.num_zap_chans
        zap_ints := gen_ivect junk mbase.num_zap_ints
        num_chans_per_int := gen_ivect junk mbase.numint
        chans := List.replicate mbase.numint.toNat [] }
    else obsmask
  let obsmask :=
    { obsmask with
      zap_chans := MPI_Bcast producer.zap_chans mbase.num_zap_chans myid obsmask.zap_chans }
  let obsmask :=
    { obsmask with
      zap_ints := MPI_Bcast producer.zap_ints mbase.num_zap_ints myid obsmask.zap_ints }
  let obsmask :=
    { obsmask with
      num_chans_per_int :=
        MPI_Bcast producer.num_chans_per_int mbase.numint myid obsmask.num_chans_per_int }
  (List.range mbase.numint.toNat).foldl (broadcast_chans_step producer junk myid) obsmask

/-! ## `write_padding` (mpiprepsubband_utils.c, lines 110-140) -/

/-- Output helper `chkfwrite(data, size, number, stream)` (misc_utils.c, not
among the sources): append the first `number` items of `data` to the stream;
the write is assumed to succeed. -/
def chkfwrite {α : Type} (data : List α) (number : Int) (stream : List α) : List α :=
  stream ++ data.take number.toNat

/-- The call `chkfwrite(data, size, number, outfiles[ii])` on an array of streams. -/
def chkfwrite_at {α : Type} (data : List α) (number : Int) (outfiles : List (List α))
    (ii : Nat) : List (List α) :=
  match outfiles[ii]? with
  | some stream => outfiles.set ii (chkfwrite data number stream)
  | none => outfiles

/-- The loop `for (ii = 0; ii < numfiles; ii++) chkfwrite(data, size, number, outfiles[ii]);` -/
def write_each {α : Type} (data : List α) (number : Int) (numfiles : Int)
    (outfiles : List (List α)) : List (List α) :=
  (List.range numfiles.toNat).foldl (chkfwrite_at data number) outfiles

/-- Allocation helper `gen_fvect(length)` (vectors.c, not among the sources): a
fresh `float` vector of the given length, contents unspecified (`junk`). -/
def gen_fvect {α : Type} (junk : Nat → α) (length : Int) : List α :=
  (List.range length.toNat).map junk

/-- Lines 125-126: `for (ii = 0; ii < veclen; ii++) buffer[ii] = value;` -/
def fill_buffer {α : Type} (value : α) (veclen : Int) (buffer : List α) : List α :=
  (List.range veclen.toNat).foldl (fun b ii => b.set ii value) buffer

/-- The routine `write_padding(outfiles, numfiles, value, numtowrite)`; returns the streams
after the call. -/
def write_padding {α : Type} (junk : Nat → α) (outfiles : List (List α)) (numfiles : Int)
    (value : α) (numtowrite : Int) : List (List α) :=
  if numtowrite ≤ 0 then outfiles
  else if numtowrite = 1 then write_each [value] 1 numfiles outfiles
  else
    let maxatonce : Int := 8192
    let veclen := if numtowrite > maxatonce then maxatonce else numtowrite
    let buffer := fill_buffer value veclen (gen_fvect junk veclen)
    if veclen = numtowrite then write_each buffer veclen numfiles outfiles
    else
      let outfiles :=
        (List.range (numtowrite / veclen).toNat).foldl
          (fun fs _ => write_each buffer veclen numfiles fs) outfiles
      write_each buffer (numtowrite % veclen) numfiles outfiles

/-! ## `update_infodata` (mpiprepsubband_utils.c, lines 177-240) -/

/-- The value a C `int` expression takes when its mathematical value is `x`:
`x` reduced into the range `-2^31 .. 2^31 - 1` (two's-complement wrap-around),
so `x` itself whenever `x` is representable. -/
def wrap_int (x : Int) : Int := (x + 2147483648) % 4294967296 - 2147483648

/-- The fields of `infodata` (declared in presto.h) that `update_infodata`
touches. `onoff` is the table `double onoff[2*MAXNUMONOFF]`, modelled as a total
map from index to value (indices are taken to be within the C array). -/
structure infodata where
  N : ℚ
  numonoff : Int
  onoff : Nat → ℚ

/-- Lines 194-197: divide every recorded on/off bin by `downsamp`. -/
def downsample_onoff (downsamp : Int) (idata : infodata) : infodata :=
  { idata with
    onoff := (List.range idata.numonoff.toNat).foldl
      (fun onoff ii =>
        let onoff := Function.update onoff (ii * 2) (onoff (ii * 2) / (downsamp : ℚ))
        Function.update onoff (ii * 2 + 1) (onoff (ii * 2 + 1) / (downsamp : ℚ)))
      idata.onoff }

/-- The inner `while` of lines 208-215, from `jj` with the running counters
`numadded`, `numremoved`; returns `(jj, numadded, numremoved)`. Each pass
increments `jj`, so `numbarybins - jj` passes always suffice (the first argument
counts them down). -/
def count_barybins (barybins : List Int) (numbarybins : Int) (limit : ℚ) :
    Nat → Nat → Int → Int → Nat × Int × Int
  | 0, jj, numadded, numremoved => (jj, numadded, numremoved)
  | fuel + 1, jj, numadded, numremoved =>
    if ((|barybins.getD jj 0| : Int) : ℚ) ≤ limit ∧ (jj : Int) < numbarybins then
      if barybins.getD jj 0 < 0 then
        count_barybins barybins numbarybins limit fuel (jj + 1) numadded (numremoved + 1)
      else
        count_barybins barybins numbarybins limit fuel (jj + 1) (numadded + 1) numremoved
    else (jj, numadded, numremoved)

/-- Lines 202-219: shift the on/off bins `onoff[1 .. 2*numonoff-1]` by the net
number of barycentric bins added before them. -/
def bary_onoff (barybins : List Int) (numbarybins : Int) (idata : infodata) : infodata :=
  if numbarybins ≠ 0 then
    let st := (List.range ((idata.numonoff * 2).toNat - 1)).foldl
      (fun (st : (Nat → ℚ) × Nat × Int × Int) k =>
        let ii := k + 1
        let c := count_barybins barybins numbarybins (st.1 ii)
          (numbarybins - (st.2.1 : Int)).toNat st.2.1 st.2.2.1 st.2.2.2
        (Function.update st.1 ii (st.1 ii + ((c.2.1 - c.2.2 : Int) : ℚ)), c))
      (idata.onoff, 0, 0, 0)
    { idata with onoff := st.1 }
  else idata

/-- The `for` loop of lines 223-239 from iteration `ii` (with `index = 2*ii-1`);
the first argument is the number of iterations left, `numonoff - ii + 1` (the
loop bound `numonoff` is only changed immediately before a `break`). -/
def cut_onoff (datawrote padwrote : Int) : Nat → Int → Nat → infodata → infodata
  | 0, _, _, idata => idata
  | left + 1, ii, index, idata =>
    if idata.onoff (index - 1) > idata.N - 1 then
      let onoff := Function.update idata.onoff (index - 1) (idata.N - 1)
      let onoff := Function.update onoff index (idata.N - 1)
      { idata with onoff := onoff }
    else if idata.onoff index > ((wrap_int (datawrote - 1) : Int) : ℚ) then
      let onoff := Function.update idata.onoff index ((wrap_int (datawrote - 1) : Int) : ℚ)
      let idata := { idata with onoff := onoff, numonoff := ii }
      if padwrote ≠ 0 then
        let onoff := Function.update idata.onoff (index + 1) (idata.N - 1)
        let onoff := Function.update onoff (index + 2) (idata.N - 1)
        { idata with numonoff := idata.numonoff + 1, onoff := onoff }
      else idata
    else cut_onoff datawrote padwrote left (ii + 1) (index + 2) idata

/-- The routine `update_infodata(idata, datawrote, padwrote, barybins, numbarybins,
downsamp)`, returning the record it leaves in `*idata`. The `int` expressions
`datawrote + padwrote` and `datawrote - 1` are evaluated in `int` before they
are stored as doubles, hence `wrap_int`; `N - 1` is double arithmetic. Index
and counter arithmetic stays within the table size and `numbarybins`. -/
def update_infodata (idata : infodata) (datawrote padwrote : Int) (barybins : List Int)
    (numbarybins : Int) (downsamp : Int) : infodata :=
  let idata := { idata with N := ((wrap_int (datawrote + padwrote) : Int) : ℚ) }
  if idata.numonoff = 0 then
    if padwrote ≠ 0 then
      let onoff := Function.update idata.onoff 0 0
      let onoff := Function.update onoff 1 ((wrap_int (datawrote - 1) : Int) : ℚ)
      let onoff := Function.update onoff 2 (idata.N - 1)
      let onoff := Function.update onoff 3 (idata.N - 1)
      { idata with numonoff := 2, onoff := onoff }
    else idata
  else
    let idata := downsample_onoff downsamp idata
    let idata := bary_onoff barybins numbarybins idata
    cut_onoff datawrote padwrote idata.numonoff.toNat 1 1 idata

/-! ## Grid constants and records of `accel.h` -/

/-- Constant `#define ACCEL_DR 0.5`: step size in Fourier frequency. -/
def ACCEL_DR : ℚ := 1 / 2

/-- Constant `#define ACCEL_RDR 2`: reciprocal of `ACCEL_DR`. -/
def ACCEL_RDR : Int := 2

/-- Constant `#define ACCEL_DZ 2`: step size in Fourier f-dot. -/
def ACCEL_DZ : Int := 2

/-- Constant `#define ACCEL_RDZ 0.5`: reciprocal of `ACCEL_DZ`. -/
def ACCEL_RDZ : ℚ := 1 / 2

/-- The coordinate part of `struct ffdotpows` (accel.h, lines 70-76); the
`powers` matrix plays no part in the coordinate maps. -/
structure ffdotpows where
  numrs : Int
  numzs : Int
  rlo : Int
  zlo : Int
  deriving DecidableEq

/-- Modelled from the spec: the grid-to-physical map of `search_ffdotpows`
(accel_utils.c is not part of the sources), "`rlo + i*ACCEL_DR`". -/
def grid_to_r (ffdot : ffdotpows) (i : Int) : ℚ := (ffdot.rlo : ℚ) + (i : ℚ) * ACCEL_DR

/-- Modelled from the spec: the grid-to-physical map of `search_ffdotpows`
(accel_utils.c is not part of the sources), "`zlo + j*ACCEL_DZ`". -/
def grid_to_z (ffdot : ffdotpows) (j : Int) : ℚ := (ffdot.zlo : ℚ) + (j : ℚ) * (ACCEL_DZ : ℚ)

/-- Modelled from the spec: the inverse coordinate map (not part of the
sources), frequency offset times the reciprocal step `ACCEL_RDR`. -/
def r_to_grid (ffdot : ffdotpows) (r : ℚ) : ℚ := (r - (ffdot.rlo : ℚ)) * (ACCEL_RDR : ℚ)

/-- Modelled from the spec: the inverse coordinate map (not part of the
sources), f-dot offset times the reciprocal step `ACCEL_RDZ`. -/
def z_to_grid (ffdot : ffdotpows) (z : ℚ) : ℚ := (z - (ffdot.zlo : ℚ)) * ACCEL_RDZ

/-- The f-dot of `struct kernel` (accel.h, lines 53-60); the remaining members
describe the Fourier-transformed response and are not modelled. -/
structure kernel where
  z : Int
  deriving DecidableEq

/-- The record `struct subharminfo` (accel.h, lines 62-68). -/
structure subharminfo where
  numharm : Int
  harmnum : Int
  zmax : Int
  numkern : Int
  kern : List kernel
  deriving DecidableEq

/-- Modelled from the spec: `round_even` of section 4.1 (accel_utils.c is not
part of the sources), the even integer nearest to `num / den` (for `den > 0`),
i.e. `ACCEL_DZ` times the integer nearest to half the quotient. -/
def round_even (num den : Int) : Int := ACCEL_DZ * ((num + den) / (2 * den))

/-- Modelled from the spec: the kernel loop of section 4.1 (accel_utils.c is
not part of the sources), "one kernel per integer step of `ACCEL_DZ` from
`-zmax_h` to `+zmax_h`": the kernels from `z` upwards while `z ≤ zmax`. The
first argument bounds the number of steps. -/
def kernels_from (zmax : Int) : Nat → Int → List kernel
  | 0, _ => []
  | fuel + 1, z =>
    if z ≤ zmax then { z := z } :: kernels_from zmax fuel (z + ACCEL_DZ) else []

/-- Modelled from the spec: the kernel bank of one harmonic (section 4.1;
accel_utils.c is not part of the sources): its own `zmax`, the kernels from
`-zmax` to `+zmax`, and `numkern` the number of kernels built. -/
def init_subharminfo (numharm harmnum zmax : Int) : subharminfo :=
  let zmax_h := round_even (zmax * harmnum) numharm
  let kern := kernels_from zmax_h (2 * zmax_h + 1).toNat (-zmax_h)
  { numharm := numharm, harmnum := harmnum, zmax := zmax_h,
    numkern := (kern.length : Int), kern := kern }

/-- Modelled from the spec: `create_subharminfo_vect(numharm, zmax)` (declared
in accel.h, line 78; its body is not part of the sources): "for each harmonic
number `h` from 1 to `numharm`" one kernel bank. -/
def create_subharminfo_vect (numharm zmax : Int) : List subharminfo :=
  (List.range numharm.toNat).map (fun k => init_subharminfo numharm ((k : Int) + 1) zmax)

/-! ### Lemmas for `update_stats` -/

theorem sumSqDev_expand (m : ℚ) (xs : List ℚ) :
    sumSqDev m xs
      = (xs.map (fun x => x ^ 2)).sum - 2 * m * xs.sum + (xs.length : ℚ) * m ^ 2 := by
  induction xs with
  | nil => simp [sumSqDev]
  | cons x xs ih =>
    have ih2 : (xs.map (fun x => (x - m) ^ 2)).sum
        = (xs.map (fun x => x ^ 2)).sum - 2 * m * xs.sum + (xs.length : ℚ) * m ^ 2 := ih
    simp only [sumSqDev, List.map_cons, List.sum_cons, List.length_cons, Nat.cast_succ]
    rw [ih2]
    ring

/-- One Welford step keeps "avg is the mean, var is the sum of squared
deviations" when a sample is appended to a non-empty prefix. -/
theorem update_stats_step (pre : List ℚ) (x : ℚ) (s : Stats) (hne : pre ≠ [])
    (havg : s.avg = mean pre) (hvar : s.var = sumSqDev (mean pre) pre) :
    (update_stats (pre.length : Int) x s).avg = mean (pre ++ [x]) ∧
    (update_stats (pre.length : Int) x s).var
      = sumSqDev (mean (pre ++ [x])) (pre ++ [x]) := by
  have hlen : (0 : ℚ) < (pre.length : ℚ) := by
    have : 0 < pre.length := List.length_pos.mpr hne
    exact_mod_cast this
  have hn0 : (pre.length : ℚ) ≠ 0 := ne_of_gt hlen
  have hn1 : (pre.length : ℚ) + 1 ≠ 0 := by positivity
  have hA : (update_stats (pre.length : Int) x s).avg = mean (pre ++ [x]) := by
    simp only [update_stats, havg, mean, List.sum_append, List.sum_cons, List.sum_nil,
      List.length_append, List.length_singleton, Nat.cast_add, Nat.cast_one, Int.cast_natCast]
    field_simp
    ring
  refine ⟨hA, ?_⟩
  have hV : (update_stats (pre.length : Int) x s).var
      = s.var + (x - s.avg) * (x - (update_stats (pre.length : Int) x s).avg) := rfl
  rw [hV, hA, hvar, havg, sumSqDev_expand, sumSqDev_expand]
  simp only [mean, List.map_append, List.sum_append, List.map_cons, List.map_nil,
    List.sum_cons, List.sum_nil, List.length_append, List.length_singleton, Nat.cast_add,
    Nat.cast_one]
  field_simp
  ring

theorem update_stats_from_inv (suf : List ℚ) :
    ∀ (pre : List ℚ) (s : Stats), pre ≠ [] → s.avg = mean pre →
      s.var = sumSqDev (mean pre) pre →
      (update_stats_from pre.length suf s).avg = mean (pre ++ suf) ∧
      (update_stats_from pre.length suf s).var
        = sumSqDev (mean (pre ++ suf)) (pre ++ suf) := by
  induction suf with
  | nil =>
    intro pre s _ havg hvar
    simpa [update_stats_from] using And.intro havg hvar
  | cons x xs ih =>
    intro pre s hne havg hvar
    obtain ⟨h1, h2⟩ := update_stats_step pre x s hne havg hvar
    have h := ih (pre ++ [x]) (update_stats (pre.length : Int) x s) (by simp) h1 h2
    simpa [update_stats_from, List.append_assoc] using h

theorem update_stats_first (x : ℚ) (s : Stats) (hvar : s.var = 0) :
    (update_stats 0 x s).avg = mean [x] ∧
    (update_stats 0 x s).var = sumSqDev (mean [x]) [x] := by
  simp [update_stats, mean, sumSqDev, hvar]

/-! ### Lemmas for `broadcast_mask` -/

theorem gen_ivect_length (junk : Nat → Int) (n : Int) :
    (gen_ivect junk n).length = n.toNat := by
  simp [gen_ivect]

/-- A consumer that receives exactly as many items as its fresh buffer holds
ends up with the root's buffer. -/
theorem MPI_Bcast_fresh (junk : Nat → Int) (rootbuf : List Int) (count myid : Int)
    (hid : myid > 0) (hlen : (rootbuf.length : Int) = count) :
    MPI_Bcast rootbuf count myid (gen_ivect junk count) = rootbuf := by
  have h0 : myid ≠ 0 := by omega
  have hc : count.toNat = rootbuf.length := by omega
  simp [MPI_Bcast, h0, hc, gen_ivect]

theorem broadcast_chans_step_fields (producer : mask) (junk : Nat → Int) (myid : Int)
    (m : mask) (ii : Nat) :
    (broadcast_chans_step producer junk myid m ii).zap_chans = m.zap_chans ∧
    (broadcast_chans_step producer junk myid m ii).zap_ints = m.zap_ints ∧
    (broadcast_chans_step producer junk myid m ii).num_chans_per_int = m.num_chans_per_int ∧
    (broadcast_chans_step producer junk myid m ii).chans.length = m.chans.length := by
  simp only [broadcast_chans_step]
  split <;> simp

/-- On a consumer, the step for row `ii` stores the root's row `ii` and leaves
the other rows alone. -/
theorem broadcast_chans_step_chans (producer : mask) (junk : Nat → Int) (myid : Int)
    (m : mask) (ii : Nat) (hid : myid > 0) (hii : ii < m.chans.length)
    (hcount : ((producer.chans.getD ii []).length : Int) = m.num_chans_per_int.getD ii 0) :
    (broadcast_chans_step producer junk myid m ii).chans
      = m.chans.set ii (producer.chans.getD ii []) := by
  have hget : (m.chans.set ii (gen_ivect junk (m.num_chans_per_int.getD ii 0))).getD ii []
      = gen_ivect junk (m.num_chans_per_int.getD ii 0) := by
    simp [List.getD_eq_getElem?_getD, List.getElem?_set, hii]
  simp only [broadcast_chans_step, if_pos hid, hget, List.set_set]
  rw [MPI_Bcast_fresh junk _ _ myid hid hcount]

/-- State of a consumer after the first `k` passes of the loop of lines 73-78. -/
theorem broadcast_chans_loop (producer : mask) (junk : Nat → Int) (myid : Int)
    (hid : myid > 0) (m : mask)
    (hcount : ∀ ii : Nat, ii < m.chans.length →
      ((producer.chans.getD ii []).length : Int) = m.num_chans_per_int.getD ii 0) :
    ∀ k : Nat, k ≤ m.chans.length →
      ((List.range k).foldl (broadcast_chans_step producer junk myid) m).zap_chans
        = m.zap_chans ∧
      ((List.range k).foldl (broadcast_chans_step producer junk myid) m).zap_ints
        = m.zap_ints ∧
      ((List.range k).foldl (broadcast_chans_step producer junk myid) m).num_chans_per_int
        = m.num_chans_per_int ∧
      ((List.range k).foldl (broadcast_chans_step producer junk myid) m).chans.length
        = m.chans.length ∧
      ∀ ii : Nat, ii < k →
        ((List.range k).foldl (broadcast_chans_step producer junk myid) m).chans[ii]?
          = some (producer.chans.getD ii []) := by
  intro k
  induction k with
  | zero => intro _; simp
  | succ k ih =>
    intro hk
    obtain ⟨h1, h2, h3, h4, h5⟩ := ih (by omega)
    rw [List.range_succ, List.foldl_append]
    simp only [List.foldl_cons, List.foldl_nil]
    obtain ⟨f1, f2, f3, f4⟩ := broadcast_chans_step_fields producer junk myid
      ((List.range k).foldl (broadcast_chans_step producer junk myid) m) k
    refine ⟨f1.trans h1, f2.trans h2, f3.trans h3, f4.trans h4, ?_⟩
    intro ii hii
    rw [broadcast_chans_step_chans producer junk myid _ k hid (by omega)
      (by rw [h3]; exact hcount k (by omega))]
    rw [List.getElem?_set]
    by_cases hki : k = ii
    · subst hki
      simp [h4]
      omega
    · simp only [if_neg hki]
      exact h5 ii (by omega)


theorem make_maskbase_struct_displs (addr : Int) :
    (make_maskbase_struct addr).displs = [0, addr + numchan_offset] := by
  simp [make_maskbase_struct, List.range_succ]

/-- The datatype committed by `make_maskbase_struct` never carries the five
ints: for a local at any non-null address, a consumer's `numchan`, `numint`,
`ptsperint`, `num_zap_chans` and `num_zap_ints` after the broadcast of `mbase`
are the values its own (uninitialised) `mbase` held before. -/
theorem MPI_Bcast_maskbase_ints_lost (addr : Int) (haddr : addr ≠ 0) (rootbase : maskbase)
    (myid : Int) (mbase : maskbase) :
    (MPI_Bcast_maskbase (make_maskbase_struct addr) rootbase myid mbase).numchan
      = mbase.numchan ∧
    (MPI_Bcast_maskbase (make_maskbase_struct addr) rootbase myid mbase).numint
      = mbase.numint ∧
    (MPI_Bcast_maskbase (make_maskbase_struct addr) rootbase myid mbase).ptsperint
      = mbase.ptsperint ∧
    (MPI_Bcast_maskbase (make_maskbase_struct addr) rootbase myid mbase).num_zap_chans
      = mbase.num_zap_chans ∧
    (MPI_Bcast_maskbase (make_maskbase_struct addr) rootbase myid mbase).num_zap_ints
      = mbase.num_zap_ints := by
  have h1 : ¬ (addr + numchan_offset = numchan_offset) := by omega
  simp only [MPI_Bcast_maskbase, make_maskbase_struct_displs, List.getD_cons_zero,
    List.getD_cons_succ, if_true, if_neg h1]
  split <;> simp

/-- With a datatype whose int block has displacement `numchan_offset` the
counts do arrive, and then on every consumer (`myid > 0`), when the producer's
arrays have the lengths its scalars announce, `broadcast_mask` leaves
`zap_chans`, `zap_ints`, `num_chans_per_int` and every row `chans[ii]`,
`ii < numint`, equal to the producer's. -/
theorem broadcast_mask_arrays_of_header (maskbase_type : MPI_Datatype)
    (hty : maskbase_type.displs.getD 1 0 = numchan_offset)
    (producer : mask) (mbase0 : maskbase) (junk : Nat → Int)
    (obsmask : mask) (myid : Int) (hid : myid > 0)
    (hzc : (producer.zap_chans.length : Int) = producer.num_zap_chans)
    (hzi : (producer.zap_ints.length : Int) = producer.num_zap_ints)
    (hnc : (producer.num_chans_per_int.length : Int) = producer.numint)
    (hch : ∀ ii : Nat, (ii : Int) < producer.numint →
      ((producer.chans.getD ii []).length : Int) = producer.num_chans_per_int.getD ii 0) :
    (broadcast_mask maskbase_type producer mbase0 junk obsmask myid).zap_chans = producer.zap_chans ∧
    (broadcast_mask maskbase_type producer mbase0 junk obsmask myid).zap_ints = producer.zap_ints ∧
    (broadcast_mask maskbase_type producer mbase0 junk obsmask myid).num_chans_per_int
      = producer.num_chans_per_int ∧
    ∀ ii : Nat, (ii : Int) < producer.numint →
      (broadcast_mask maskbase_type producer mbase0 junk obsmask myid).chans[ii]?
        = some (producer.chans.getD ii []) := by
  have h0 : myid ≠ 0 := by omega
  have e1 := MPI_Bcast_fresh junk producer.zap_chans producer.num_zap_chans myid hid hzc
  have e2 := MPI_Bcast_fresh junk producer.zap_ints producer.num_zap_ints myid hid hzi
  have e3 := MPI_Bcast_fresh junk producer.num_chans_per_int producer.numint myid hid hnc
  have hloop := broadcast_chans_loop producer junk myid hid
    { obsmask with
      zap_chans := producer.zap_chans
      zap_ints := producer.zap_ints
      num_chans_per_int := producer.num_chans_per_int
      chans := List.replicate producer.numint.toNat [] }
    (by
      intro ii hii
      simp only [List.length_replicate] at hii
      exact hch ii (by omega))
    producer.numint.toNat (by simp)
  have hdef : broadcast_mask maskbase_type producer mbase0 junk obsmask myid
      = (List.range producer.numint.toNat).foldl (broadcast_chans_step producer junk myid)
          { obsmask with
            zap_chans := producer.zap_chans
            zap_ints := producer.zap_ints
            num_chans_per_int := producer.num_chans_per_int
            chans := List.replicate producer.numint.toNat [] } := by
    simp only [broadcast_mask, MPI_Bcast_maskbase, if_neg h0, if_pos hid, pack_maskbase,
      hty, if_true]
    rw [e1, e2, e3]
  rw [hdef]
  obtain ⟨h1, h2, h3, _, h5⟩ := hloop
  exact ⟨h1, h2, h3, fun ii hii => h5 ii (by omega)⟩

/-! ### Lemmas for `write_padding` -/

theorem chkfwrite_at_getElem? {α : Type} (data : List α) (number : Int)
    (fs : List (List α)) (ii i : Nat) :
    (chkfwrite_at data number fs ii)[i]?
      = if i = ii then fs[i]?.map (fun f => f ++ data.take number.toNat) else fs[i]? := by
  unfold chkfwrite_at
  cases h : fs[ii]? with
  | none =>
    by_cases hi : i = ii
    · subst hi; simp [h]
    · simp [hi]
  | some stream =>
    have hlt : ii < fs.length := by
      by_contra hge
      have : fs[ii]? = none := List.getElem?_eq_none (by omega)
      simp [this] at h
    by_cases hi : i = ii
    · subst hi; simp [List.getElem?_set, hlt, h, chkfwrite]
    · have hi2 : ¬ ii = i := fun e => hi e.symm
      simp [List.getElem?_set, hi, hi2]

/-- The first `k` passes of a per-file write loop append the data to the
streams `0 .. k-1`. -/
theorem write_loop_getElem? {α : Type} (data : List α) (number : Int) (k : Nat) :
    ∀ (fs : List (List α)) (i : Nat),
      ((List.range k).foldl (chkfwrite_at data number) fs)[i]?
        = if i < k then fs[i]?.map (fun f => f ++ data.take number.toNat) else fs[i]? := by
  induction k with
  | zero => intro fs i; simp
  | succ k ih =>
    intro fs i
    rw [List.range_succ, List.foldl_append]
    simp only [List.foldl_cons, List.foldl_nil]
    rw [chkfwrite_at_getElem?, ih]
    by_cases h1 : i = k
    · subst h1; simp
    · by_cases h2 : i < k
      · have h3 : i < k + 1 := by omega
        simp [h1, h2, h3]
      · have h3 : ¬ i < k + 1 := by omega
        simp [h1, h2, h3]

theorem write_each_getElem? {α : Type} (data : List α) (number numfiles : Int)
    (fs : List (List α)) (i : Nat) :
    (write_each data number numfiles fs)[i]?
      = if (i : Int) < numfiles then fs[i]?.map (fun f => f ++ data.take number.toNat)
        else fs[i]? := by
  unfold write_each
  rw [write_loop_getElem?]
  by_cases h : (i : Int) < numfiles
  · have h2 : i < numfiles.toNat := by omega
    simp [h, h2]
  · have h2 : ¬ i < numfiles.toNat := by omega
    simp [h, h2]

/-- Filling a buffer of `n` slots leaves `n` copies of the value. -/
theorem fill_loop {α : Type} (value : α) (k : Nat) :
    ∀ (b : List α), k ≤ b.length →
      (List.range k).foldl (fun b ii => b.set ii value) b
        = List.replicate k value ++ b.drop k := by
  induction k with
  | zero => intro b _; simp
  | succ k ih =>
    intro b hk
    rw [List.range_succ, List.foldl_append, ih b (by omega)]
    simp only [List.foldl_cons, List.foldl_nil]
    apply List.ext_getElem?
    intro i
    rw [List.getElem?_set]
    by_cases h1 : k = i
    · subst h1
      simp [List.getElem?_append, List.getElem?_replicate]
      omega
    · simp only [if_neg h1]
      by_cases h2 : i < k
      · have h3 : i < k + 1 := by omega
        simp [List.getElem?_append, List.getElem?_replicate, h2, h3]
      · have h3 : ¬ i < k + 1 := by omega
        have h4 : i - k = (i - (k + 1)) + 1 := by omega
        simp [List.getElem?_append, List.getElem?_replicate, h2, h3, h4]
        congr 1
        omega

theorem fill_buffer_fresh {α : Type} (junk : Nat → α) (value : α) (veclen : Int) :
    fill_buffer value veclen (gen_fvect junk veclen) = List.replicate veclen.toNat value := by
  unfold fill_buffer
  rw [fill_loop value veclen.toNat _ (by simp [gen_fvect])]
  simp [gen_fvect]

/-- Writing a full buffer `m` times to every file appends `m * veclen` items. -/
theorem write_rounds_getElem? {α : Type} (value : α) (veclen numfiles : Int)
    (m : Nat) :
    ∀ (fs : List (List α)) (i : Nat),
      ((List.range m).foldl
          (fun fs _ => write_each (List.replicate veclen.toNat value) veclen numfiles fs) fs)[i]?
        = if (i : Int) < numfiles
          then fs[i]?.map (fun f => f ++ List.replicate (m * veclen.toNat) value)
          else fs[i]? := by
  induction m with
  | zero =>
    intro fs i
    by_cases h : (i : Int) < numfiles <;> simp [h]
  | succ m ih =>
    intro fs i
    rw [List.range_succ, List.foldl_append]
    simp only [List.foldl_cons, List.foldl_nil]
    rw [write_each_getElem?, ih]
    by_cases h : (i : Int) < numfiles
    · simp only [if_pos h, Option.map_map]
      congr 1
      funext f
      simp only [Function.comp, List.append_assoc, List.take_replicate, min_self]
      congr 1
      rw [← List.replicate_add]
      congr 1
      ring
    · simp [h]


/-! ### Lemmas for `update_infodata` -/

theorem wrap_int_of_range (x : Int) (hlo : -2147483648 ≤ x) (hhi : x ≤ 2147483647) :
    wrap_int x = x := by
  unfold wrap_int
  omega

theorem downsample_onoff_N (downsamp : Int) (idata : infodata) :
    (downsample_onoff downsamp idata).N = idata.N := rfl

theorem downsample_onoff_numonoff (downsamp : Int) (idata : infodata) :
    (downsample_onoff downsamp idata).numonoff = idata.numonoff := rfl

theorem bary_onoff_N (barybins : List Int) (numbarybins : Int) (idata : infodata) :
    (bary_onoff barybins numbarybins idata).N = idata.N := by
  unfold bary_onoff
  split <;> rfl

theorem bary_onoff_numonoff (barybins : List Int) (numbarybins : Int) (idata : infodata) :
    (bary_onoff barybins numbarybins idata).numonoff = idata.numonoff := by
  unfold bary_onoff
  split <;> rfl

theorem cut_onoff_N (datawrote padwrote : Int) (left : Nat) :
    ∀ (ii : Int) (index : Nat) (idata : infodata),
      (cut_onoff datawrote padwrote left ii index idata).N = idata.N := by
  induction left with
  | zero => intro ii index idata; rfl
  | succ left ih =>
    intro ii index idata
    simp only [cut_onoff]
    split
    · rfl
    · split
      · split <;> rfl
      · exact ih _ _ _


/-! ### Lemmas for the kernel bank -/

/-- With enough steps allowed, the kernels built from `z` upwards are those at
`z, z + 2, z + 4, ...` up to `zmax`. -/
theorem kernels_from_z (zmax : Int) (fuel : Nat) :
    ∀ z : Int, zmax - z < 2 * (fuel : Int) →
      (kernels_from zmax fuel z).map kernel.z
        = (List.range ((zmax - z + 2) / 2).toNat).map (fun k : Nat => z + 2 * (k : Int)) := by
  induction fuel with
  | zero =>
    intro z hz
    have h0 : ((zmax - z + 2) / 2).toNat = 0 := by omega
    simp [kernels_from, h0]
  | succ fuel ih =>
    intro z hz
    by_cases hle : z ≤ zmax
    · have hn : ((zmax - z + 2) / 2).toNat = ((zmax - (z + 2) + 2) / 2).toNat + 1 := by omega
      simp only [kernels_from, if_pos hle, List.map_cons, ACCEL_DZ]
      rw [ih (z + 2) (by push_cast at hz; omega), hn, List.range_succ_eq_map]
      simp only [List.map_cons, List.map_map]
      congr 1
      · simp
      · apply List.map_congr_left
        intro k _
        simp only [Function.comp, Nat.succ_eq_add_one]
        push_cast
        ring
    · have h0 : ((zmax - z + 2) / 2).toNat = 0 := by omega
      simp [kernels_from, if_neg hle, h0]

theorem init_subharminfo_kern (numharm harmnum zmax : Int)
    (hz : 0 ≤ (init_subharminfo numharm harmnum zmax).zmax) :
    (init_subharminfo numharm harmnum zmax).kern.map kernel.z
      = (List.range ((init_subharminfo numharm harmnum zmax).zmax + 1).toNat).map
          (fun k : Nat => -(init_subharminfo numharm harmnum zmax).zmax + 2 * (k : Int)) := by
  simp only [init_subharminfo] at hz ⊢
  rw [kernels_from_z _ _ _ (by omega)]
  congr 2
  omega


/-! ### Consistency of the loop models -/

theorem set_getD_self {α : Type} (l : List α) (i : Nat) (d : α) :
    l.set i (l.getD i d) = l := by
  apply List.ext_getElem?
  intro j
  rw [List.getElem?_set]
  by_cases h : i = j
  · subst h
    by_cases hl : i < l.length
    · simp [hl, List.getD_eq_getElem?_getD, List.getElem?_eq_getElem hl]
    · have : l[i]? = none := List.getElem?_eq_none (by omega)
      simp [hl, this]
  · simp [h]

theorem broadcast_chans_step_root (producer : mask) (junk : Nat → Int) (m : mask)
    (ii : Nat) : broadcast_chans_step producer junk 0 m ii = m := by
  have h := set_getD_self m.chans ii []
  cases m
  simp only [broadcast_chans_step, MPI_Bcast, gt_iff_lt, lt_self_iff_false, if_false,
    if_true] at h ⊢
  rw [h]

/-- The root's own mask is left untouched by `broadcast_mask`, so at every
broadcast the root's buffer is the corresponding member of `producer`. -/
theorem broadcast_mask_root (maskbase_type : MPI_Datatype) (producer : mask)
    (mbase0 : maskbase) (junk : Nat → Int) :
    broadcast_mask maskbase_type producer mbase0 junk producer 0 = producer := by
  have hfold : ∀ (l : List Nat) (m : mask),
      l.foldl (broadcast_chans_step producer junk 0) m = m := by
    intro l
    induction l with
    | nil => intro m; rfl
    | cons a l ih => intro m; simp [List.foldl_cons, broadcast_chans_step_root, ih]
  simp [broadcast_mask, MPI_Bcast, MPI_Bcast_maskbase, hfold]

/-- With `numbarybins - jj` passes allowed, the inner `while` of lines 208-215
stops only when its condition is false. -/
theorem count_barybins_done (barybins : List Int) (numbarybins : Int) (limit : ℚ)
    (fuel : Nat) :
    ∀ (jj : Nat) (numadded numremoved : Int), (numbarybins - (jj : Int)).toNat ≤ fuel →
      ¬ (((|barybins.getD
              (count_barybins barybins numbarybins limit fuel jj numadded numremoved).1 0| : Int)
              : ℚ) ≤ limit ∧
          ((count_barybins barybins numbarybins limit fuel jj numadded numremoved).1 : Int)
            < numbarybins) := by
  induction fuel with
  | zero =>
    intro jj a r hf
    simp only [count_barybins]
    intro h
    omega
  | succ fuel ih =>
    intro jj a r hf
    simp only [count_barybins]
    split
    · split
      · exact ih (jj + 1) a (r + 1) (by push_cast; omega)
      · exact ih (jj + 1) (a + 1) r (by push_cast; omega)
    · assumption


theorem broadcast_chans_step_scalars (producer : mask) (junk : Nat → Int) (myid : Int)
    (m : mask) (ii : Nat) :
    pack_maskbase (broadcast_chans_step producer junk myid m ii) = pack_maskbase m := rfl

/-- No path of `broadcast_mask` assigns a scalar member of `obsmask`: on every
process the eleven scalars after the call are those before it. -/
theorem broadcast_mask_keeps_scalars (maskbase_type : MPI_Datatype) (producer : mask)
    (mbase0 : maskbase) (junk : Nat → Int) (obsmask : mask) (myid : Int) :
    pack_maskbase (broadcast_mask maskbase_type producer mbase0 junk obsmask myid)
      = pack_maskbase obsmask := by
  have hfold : ∀ (l : List Nat) (m : mask),
      pack_maskbase (l.foldl (broadcast_chans_step producer junk myid) m)
        = pack_maskbase m := by
    intro l
    induction l with
    | nil => intro m; rfl
    | cons a l ih =>
      intro m
      rw [List.foldl_cons, ih, broadcast_chans_step_scalars]
  unfold broadcast_mask
  simp only [hfold]
  split <;> rfl


/-! ## Claims -/

/-- C1: starting from `var = 0` and any `avg`, calling `update_stats` with
`N = 0, 1, ..., n-1` on a non-empty sample list leaves `avg` equal to the
arithmetic mean of the samples and `var` equal to the sum of the squared
deviations from that mean (exact arithmetic). -/
theorem update_stats_welford (xs : List ℚ) (s : Stats) (hne : xs ≠ [])
    (hvar : s.var = 0) :
    (update_stats_from 0 xs s).avg = xs.sum / (xs.length : ℚ) ∧
    (update_stats_from 0 xs s).var
      = (xs.map (fun x => (x - xs.sum / (xs.length : ℚ)) ^ 2)).sum := by
  cases xs with
  | nil => exact absurd rfl hne
  | cons x xs =>
    obtain ⟨h1, h2⟩ := update_stats_first x s hvar
    have h := update_stats_from_inv xs [x] (update_stats 0 x s) (by simp) h1 h2
    simpa [update_stats_from, mean, sumSqDev] using h

/-- Witness for C1: samples 1, 2, 6 from `avg = 5`, `var = 0`. -/
theorem update_stats_welford_witness :
    ([1, 2, 6] : List ℚ) ≠ [] ∧ (Stats.mk 0 0 5 0).var = 0 ∧
    ((update_stats_from 0 [1, 2, 6] (Stats.mk 0 0 5 0)).avg
        = ([1, 2, 6] : List ℚ).sum / (([1, 2, 6] : List ℚ).length : ℚ) ∧
     (update_stats_from 0 [1, 2, 6] (Stats.mk 0 0 5 0)).var
        = (([1, 2, 6] : List ℚ).map
            (fun x => (x - ([1, 2, 6] : List ℚ).sum / (([1, 2, 6] : List ℚ).length : ℚ)) ^ 2)).sum) :=
  ⟨by simp, rfl, update_stats_welford [1, 2, 6] (Stats.mk 0 0 5 0) (by simp) rfl⟩

/-- C2, evaluated: a consumer (`myid = 1`) whose mask starts with all scalars zero
still has them zero after `broadcast_mask`, although the producer's mask has
`timesigma = 10`, `freqsigma = 4`, `numchan = 4`, `numint = 2`, `ptsperint = 100`,
`num_zap_chans = 2` and `num_zap_ints = 1`: no scalar of `obsmask` is assigned.
The datatype is the one `make_maskbase_struct` commits. -/
theorem broadcast_mask_scalars_not_stored :
    let producer : mask :=
      { timesigma := 10, freqsigma := 4, mjd := 0, dtint := 0, lofreq := 0, dfreq := 0,
        numchan := 4, numint := 2, ptsperint := 100, num_zap_chans := 2, num_zap_ints := 1,
        zap_chans := [1, 3], zap_ints := [0], num_chans_per_int := [1, 2],
        chans := [[2], [0, 1]] }
    let consumer : mask :=
      { timesigma := 0, freqsigma := 0, mjd := 0, dtint := 0, lofreq := 0, dfreq := 0,
        numchan := 0, numint := 0, ptsperint := 0, num_zap_chans := 0, num_zap_ints := 0,
        zap_chans := [], zap_ints := [], num_chans_per_int := [], chans := [] }
    let after := broadcast_mask (make_maskbase_struct 140720308490240) producer
      (pack_maskbase consumer) (fun _ => 0) consumer 1
    after.timesigma = 0 ∧ after.freqsigma = 0 ∧ after.numchan = 0 ∧ after.numint = 0 ∧
    after.ptsperint = 0 ∧ after.num_zap_chans = 0 ∧ after.num_zap_ints = 0 ∧
    producer.timesigma = 10 ∧ producer.freqsigma = 4 ∧ producer.numchan = 4 ∧
    producer.numint = 2 ∧ producer.ptsperint = 100 ∧ producer.num_zap_chans = 2 ∧
    producer.num_zap_ints = 1 := by
  decide

/-- C3, evaluated: `make_maskbase_struct` zeroes `displs[0]` before subtracting
it from `displs[1]`, so the int block of `maskbase_type` keeps the absolute
address of `mbase.numchan` as its displacement and `num_zap_chans`,
`num_zap_ints` and `numint` do not reach a consumer. Process 1, whose local
`mbase` holds zeros, allocates and receives vectors of length 0: its arrays stay
empty while the producer's are `[1, 3]`, `[0]`, `[1, 2]` and `[[2], [0, 1]]`. -/
theorem broadcast_mask_arrays_not_replicated :
    let producer : mask :=
      { timesigma := 10, freqsigma := 4, mjd := 0, dtint := 0, lofreq := 0, dfreq := 0,
        numchan := 4, numint := 2, ptsperint := 100, num_zap_chans := 2, num_zap_ints := 1,
        zap_chans := [1, 3], zap_ints := [0], num_chans_per_int := [1, 2],
        chans := [[2], [0, 1]] }
    let consumer : mask :=
      { timesigma := 0, freqsigma := 0, mjd := 0, dtint := 0, lofreq := 0, dfreq := 0,
        numchan := 0, numint := 0, ptsperint := 0, num_zap_chans := 0, num_zap_ints := 0,
        zap_chans := [], zap_ints := [], num_chans_per_int := [], chans := [] }
    let after := broadcast_mask (make_maskbase_struct 140720308490240) producer
      (maskbase.mk 0 0 0 0 0 0 0 0 0 0 0) (fun _ => 7) consumer 1
    make_maskbase_struct 140720308490240
      = { blockcounts := [6, 5], displs := [0, 140720308490288] } ∧
    after.zap_chans = [] ∧ after.zap_ints = [] ∧ after.num_chans_per_int = [] ∧
    after.chans = [] ∧
    producer.zap_chans = [1, 3] ∧ producer.zap_ints = [0] ∧
    producer.num_chans_per_int = [1, 2] ∧ producer.chans = [[2], [0, 1]] := by
  decide

/-- C8: `write_padding` appends exactly `max(numtowrite, 0)` items, all equal to
`value`, to each of the first `numfiles` streams, and leaves every other stream
(and the number of streams) as it was. -/
theorem write_padding_exact {α : Type} (junk : Nat → α) (outfiles : List (List α))
    (numfiles : Int) (value : α) (numtowrite : Int) (i : Nat) :
    (write_padding junk outfiles numfiles value numtowrite)[i]?
      = if (i : Int) < numfiles
        then outfiles[i]?.map (fun f => f ++ List.replicate (max numtowrite 0).toNat value)
        else outfiles[i]? := by
  unfold write_padding
  by_cases h0 : numtowrite ≤ 0
  · have hm : (max numtowrite 0).toNat = 0 := by
      rw [max_eq_right h0]; rfl
    by_cases h : (i : Int) < numfiles <;> simp [h0, hm, h]
  · rw [if_neg h0]
    have hmax : max numtowrite 0 = numtowrite := max_eq_left (by omega)
    rw [hmax]
    by_cases h1 : numtowrite = 1
    · subst h1
      rw [if_pos rfl, write_each_getElem?]
      simp
    · rw [if_neg h1]
      simp only [fill_buffer_fresh]
      by_cases hbig : numtowrite > 8192
      · have hne : ¬ ((8192 : Int) = numtowrite) := by omega
        simp only [if_pos hbig, if_neg hne]
        rw [write_each_getElem?, write_rounds_getElem? value 8192 numfiles]
        by_cases h : (i : Int) < numfiles
        · simp only [if_pos h, Option.map_map]
          congr 1
          funext f
          simp only [Function.comp, List.append_assoc, List.take_replicate]
          congr 1
          rw [← List.replicate_add]
          congr 1
          have e1 : (8192 : Int).toNat = 8192 := rfl
          have e2 : (min (numtowrite % 8192).toNat (8192 : Int).toNat)
              = (numtowrite % 8192).toNat := by
            rw [e1]; omega
          rw [e2, e1]
          omega
        · simp [h]
      · simp only [if_neg hbig, if_true]
        rw [write_each_getElem?]
        simp


/-- C7, refuted as stated: with `datawrote = 2147483647` and `padwrote = 1` the
`int` sum of line 183 wraps, so `N` is `-2147483648` and `onoff[2]`, `onoff[3]`
are `-2147483649`, not `2147483648` and `2147483647`; with
`datawrote = -2147483648` the `int` difference `datawrote - 1` of line 188 wraps
to `2147483647`. -/
theorem update_infodata_int_wraps :
    (update_infodata (infodata.mk 0 0 (fun _ => 0)) 2147483647 1 [] 0 1).N = -2147483648 ∧
    (update_infodata (infodata.mk 0 0 (fun _ => 0)) 2147483647 1 [] 0 1).onoff 2
      = -2147483649 ∧
    (update_infodata (infodata.mk 0 0 (fun _ => 0)) 2147483647 1 [] 0 1).onoff 3
      = -2147483649 ∧
    ¬ ((update_infodata (infodata.mk 0 0 (fun _ => 0)) 2147483647 1 [] 0 1).N
        = ((2147483647 : Int) : ℚ) + ((1 : Int) : ℚ)) ∧
    (update_infodata (infodata.mk 0 0 (fun _ => 0)) (-2147483648) 1 [] 0 1).onoff 1
      = 2147483647 ∧
    ¬ ((update_infodata (infodata.mk 0 0 (fun _ => 0)) (-2147483648) 1 [] 0 1).onoff 1
        = ((-2147483648 : Int) : ℚ) - 1) := by
  norm_num [update_infodata, wrap_int, Function.update]

/-- C7, amended: when `datawrote + padwrote` is representable as an `int`,
`update_infodata` leaves `N = datawrote + padwrote`; when moreover `numonoff` is
0 on entry, then for `padwrote = 0` it leaves `numonoff` and `onoff` unchanged,
and for `padwrote` non-zero with `datawrote - 1` representable it sets
`numonoff = 2` and `onoff[0..3] = (0, datawrote-1, N-1, N-1)` and nothing else;
`barybins`, `numbarybins` and `downsamp` play no part in either case. -/
theorem update_infodata_no_onoff (idata : infodata) (datawrote padwrote : Int)
    (barybins : List Int) (numbarybins downsamp : Int)
    (hsum : -2147483648 ≤ datawrote + padwrote ∧ datawrote + padwrote ≤ 2147483647) :
    (update_infodata idata datawrote padwrote barybins numbarybins downsamp).N
      = (datawrote : ℚ) + (padwrote : ℚ) ∧
    (idata.numonoff = 0 → padwrote = 0 →
      update_infodata idata datawrote padwrote barybins numbarybins downsamp
        = { N := (datawrote : ℚ) + (padwrote : ℚ)
            numonoff := idata.numonoff
            onoff := idata.onoff }) ∧
    (idata.numonoff = 0 → padwrote ≠ 0 →
      (-2147483648 ≤ datawrote - 1 ∧ datawrote - 1 ≤ 2147483647) →
      update_infodata idata datawrote padwrote barybins numbarybins downsamp
        = { N := (datawrote : ℚ) + (padwrote : ℚ)
            numonoff := 2
            onoff := fun k =>
              if k = 0 then 0
              else if k = 1 then (datawrote : ℚ) - 1
              else if k = 2 then (datawrote : ℚ) + (padwrote : ℚ) - 1
              else if k = 3 then (datawrote : ℚ) + (padwrote : ℚ) - 1
              else idata.onoff k }) := by
  have hN : wrap_int (datawrote + padwrote) = datawrote + padwrote :=
    wrap_int_of_range _ hsum.1 hsum.2
  refine ⟨?_, ?_, ?_⟩
  · unfold update_infodata
    simp only []
    split
    · split <;> simp [hN]
    · rw [cut_onoff_N, bary_onoff_N, downsample_onoff_N]
      simp [hN]
  · intro h0 hp
    subst hp
    unfold update_infodata
    simp only [add_zero] at hN
    simp [h0, hN]
  · intro h0 hp hdw
    have hD : wrap_int (datawrote - 1) = datawrote - 1 := wrap_int_of_range _ hdw.1 hdw.2
    unfold update_infodata
    simp only [h0, if_true, ne_eq, hp, not_false_eq_true, hN, hD]
    congr 1
    · simp
    · funext k
      by_cases k0 : k = 0
      · subst k0; simp [Function.update]
      by_cases k1 : k = 1
      · subst k1; simp [Function.update]
      by_cases k2 : k = 2
      · subst k2; simp [Function.update]
      by_cases k3 : k = 3
      · subst k3; simp [Function.update]
      simp [Function.update, k0, k1, k2, k3]

/-- Witness for C7: no on/off pairs on entry, 100 samples written, 28 padded. -/
theorem update_infodata_no_onoff_witness :
    ((-2147483648 : Int) ≤ 100 + 28 ∧ (100 : Int) + 28 ≤ 2147483647) ∧
    (infodata.mk 0 0 (fun _ => 0)).numonoff = 0 ∧ (28 : Int) ≠ 0 ∧
    ((-2147483648 : Int) ≤ 100 - 1 ∧ (100 : Int) - 1 ≤ 2147483647) ∧
    (update_infodata (infodata.mk 0 0 (fun _ => 0)) 100 28 [5, -9] 2 4).N = 128 ∧
    (update_infodata (infodata.mk 0 0 (fun _ => 0)) 100 28 [5, -9] 2 4).numonoff = 2 ∧
    (update_infodata (infodata.mk 0 0 (fun _ => 0)) 100 28 [5, -9] 2 4).onoff 1 = 99 ∧
    (update_infodata (infodata.mk 0 0 (fun _ => 0)) 100 28 [5, -9] 2 4).onoff 2 = 127 := by
  have h := update_infodata_no_onoff (infodata.mk 0 0 (fun _ => 0)) 100 28 [5, -9] 2 4
    (by decide)
  have h3 := h.2.2 rfl (by decide) (by decide)
  refine ⟨by decide, rfl, by decide, by decide, ?_, ?_, ?_, ?_⟩
  · rw [h.1]; norm_num
  · rw [h3]
  · rw [h3]; norm_num
  · rw [h3]; norm_num

/-- C6, evaluated: three on/off pairs `(0,99) (200,299) (400,499)`, 150 samples
written, no padding, no barycentric bins, `downsamp = 1`. The second pair starts
beyond `N - 1 = 149`, is clipped to `(149, 149)` and the loop stops without
lowering `numonoff`: the third pair `(400, 499)` is still recorded on return. -/
theorem update_infodata_leaves_late_pair :
    (update_infodata (infodata.mk 0 3 (fun i => [0, 99, 200, 299, 400, 499].getD i 0))
        150 0 [] 0 1).N = 150 ∧
    (update_infodata (infodata.mk 0 3 (fun i => [0, 99, 200, 299, 400, 499].getD i 0))
        150 0 [] 0 1).numonoff = 3 ∧
    (update_infodata (infodata.mk 0 3 (fun i => [0, 99, 200, 299, 400, 499].getD i 0))
        150 0 [] 0 1).onoff 2 = 149 ∧
    (update_infodata (infodata.mk 0 3 (fun i => [0, 99, 200, 299, 400, 499].getD i 0))
        150 0 [] 0 1).onoff 3 = 149 ∧
    (update_infodata (infodata.mk 0 3 (fun i => [0, 99, 200, 299, 400, 499].getD i 0))
        150 0 [] 0 1).onoff 4 = 400 ∧
    (update_infodata (infodata.mk 0 3 (fun i => [0, 99, 200, 299, 400, 499].getD i 0))
        150 0 [] 0 1).onoff 5 = 499 := by
  norm_num [update_infodata, wrap_int, downsample_onoff, bary_onoff, cut_onoff,
    Function.update, List.range_succ]


/-- C4: for every plane origin `(rlo, zlo)` and every grid cell `(i, j)`, mapping
to physical units with `ACCEL_DR`, `ACCEL_DZ` and back with `ACCEL_RDR`,
`ACCEL_RDZ` returns `i` and `j` exactly; the constants are exact reciprocals. -/
theorem grid_round_trip (ffdot : ffdotpows) (i j : Int) :
    r_to_grid ffdot (grid_to_r ffdot i) = (i : ℚ) ∧
    z_to_grid ffdot (grid_to_z ffdot j) = (j : ℚ) ∧
    ACCEL_DR * (ACCEL_RDR : ℚ) = 1 ∧ (ACCEL_DZ : ℚ) * ACCEL_RDZ = 1 := by
  simp only [r_to_grid, grid_to_r, z_to_grid, grid_to_z, ACCEL_DR, ACCEL_RDR, ACCEL_DZ,
    ACCEL_RDZ]
  refine ⟨?_, ?_, ?_, ?_⟩ <;> push_cast <;> ring

/-- C5: every `subharminfo` built by `create_subharminfo_vect` whose `zmax` is
even and non-negative has `numkern = 2*zmax/ACCEL_DZ + 1` kernels, their `z`
strictly increasing with the array index, running from `-zmax` to `+zmax`. -/
theorem subharminfo_numkern (numharm zmax : Int) (shi : subharminfo)
    (hmem : shi ∈ create_subharminfo_vect numharm zmax)
    (hnonneg : 0 ≤ shi.zmax) (heven : shi.zmax % 2 = 0) :
    shi.numkern = 2 * shi.zmax / ACCEL_DZ + 1 ∧
    List.Pairwise (fun a b => a < b) (shi.kern.map kernel.z) ∧
    (shi.kern.map kernel.z).head? = some (-shi.zmax) ∧
    (shi.kern.map kernel.z).getLast? = some shi.zmax := by
  simp only [create_subharminfo_vect, List.mem_map, List.mem_range] at hmem
  obtain ⟨k, _, rfl⟩ := hmem
  have hk := init_subharminfo_kern numharm ((k : Int) + 1) zmax hnonneg
  have hlen : (init_subharminfo numharm ((k : Int) + 1) zmax).numkern
      = (((init_subharminfo numharm ((k : Int) + 1) zmax).kern.map kernel.z).length : Int) := by
    simp [init_subharminfo]
  generalize (init_subharminfo numharm ((k : Int) + 1) zmax).zmax = zm at hk hnonneg heven hlen ⊢
  rw [hlen, hk]
  obtain ⟨n, rfl⟩ := Int.eq_ofNat_of_zero_le hnonneg
  have hn : ((n : Int) + 1).toNat = n + 1 := by omega
  rw [hn]
  refine ⟨?_, ?_, ?_, ?_⟩
  · simp only [List.length_map, List.length_range, ACCEL_DZ]
    push_cast
    omega
  · rw [List.pairwise_map]
    refine (List.pairwise_lt_range (n + 1)).imp ?_
    intro a b hab
    omega
  · simp [List.range_succ_eq_map]
  · rw [List.range_succ]
    simp
    ring

/-- Witness for C5: the fundamental of `create_subharminfo_vect(2, 4)`. -/
theorem subharminfo_numkern_witness :
    (subharminfo.mk 2 2 4 5 [⟨-4⟩, ⟨-2⟩, ⟨0⟩, ⟨2⟩, ⟨4⟩]) ∈ create_subharminfo_vect 2 4 ∧
    (5 : Int) = 2 * 4 / ACCEL_DZ + 1 ∧
    List.Pairwise (fun a b : Int => a < b) [-4, -2, 0, 2, 4] :=
  have h := subharminfo_numkern 2 4 (subharminfo.mk 2 2 4 5 [⟨-4⟩, ⟨-2⟩, ⟨0⟩, ⟨2⟩, ⟨4⟩])
    (by decide) (by decide) (by decide)
  ⟨by decide, h.1, h.2.1⟩


end Presto
